import Mathlib

/-!
Verification development for the Streamlit RNA-seq differential-expression app
(`interactive.py`). The numeric pipeline, the Benjamini-Hochberg correction
performed by `statsmodels.stats.multitest.multipletests(pvalues, method="fdr_bh")`,
the results filtering, and the upload/configure control flow are embedded as
executable Lean definitions over `ℚ` (for the float arithmetic whose claims are
order/equality facts) and `ℝ` (for the log2 formulas).
-/

/-! ### Benjamini-Hochberg correction (interactive.py line 97)

`multipletests(pvalues, method="fdr_bh")[1]` computes, per statsmodels:
`sortind = argsort(pvals)`, `pvals_sorted = take(pvals, sortind)`,
`raw = pvals_sorted / (arange(1, m+1) / m)`, reversed running minimum,
clip above at 1 (`pvals_corrected[pvals_corrected > 1] = 1`), and
scatter back via `pvals_corrected_[sortind] = pvals_corrected`. -/

/-- Index permutation sorting positions `0 .. ps.length - 1` by ascending
p-value; models `np.argsort(pvals)` inside `multipletests`. -/
def argsortIdx (ps : List ℚ) : List ℕ :=
  List.insertionSort (fun i j => ps.getD i 0 ≤ ps.getD j 0) (List.range ps.length)

/-- The p-values rearranged into ascending order (`np.take(pvals, sortind)`). -/
def sortedP (ps : List ℚ) : List ℚ :=
  (argsortIdx ps).map (fun j => ps.getD j 0)

/-- Raw adjusted values `p_sorted[k] * m / (k + 1)` for 0-based position `k`
(equivalently `pvals_sorted / ecdffactor` with `ecdffactor[k] = (k+1)/m`). -/
def bhRaw (ps : List ℚ) : List ℚ :=
  (List.range ps.length).map
    (fun k => (sortedP ps).getD k 0 * (ps.length : ℚ) / ((k : ℚ) + 1))

/-- Suffix running minimum: entry `i` of the output is the minimum of entries
`i .. end` of the input; models `np.minimum.accumulate(raw[::-1])[::-1]`. -/
def suffMin : List ℚ → List ℚ
  | [] => []
  | p :: rest =>
    match suffMin rest with
    | [] => [p]
    | q :: t => min p q :: q :: t

/-- Clip above at 1; models `pvals_corrected[pvals_corrected > 1] = 1`. -/
def clipHigh (l : List ℚ) : List ℚ :=
  l.map (fun x => min x 1)

/-- Scatter `vals` back to original positions: output position `j` receives the
value at the position of `j` inside `idx`; models `out[sortind] = vals`. -/
def scatterBack (idx : List ℕ) (vals : List ℚ) (m : ℕ) : List ℚ :=
  (List.range m).map (fun j => vals.getD (List.indexOf j idx) 0)

/-- The corrected p-values in ascending-p order, before scattering back. -/
def bhSorted (ps : List ℚ) : List ℚ :=
  clipHigh (suffMin (bhRaw ps))

/-- The FDR column: `multipletests(pvalues, method="fdr_bh")[1]`, in the
original gene order. -/
def multipletests_fdr_bh (ps : List ℚ) : List ℚ :=
  scatterBack (argsortIdx ps) (bhSorted ps) ps.length

/-- Modelled from the spec: clipping "to [0,1]" as the spec words it, rather
than statsmodels' one-sided clip above at 1. -/
def clip01 (l : List ℚ) : List ℚ :=
  l.map (fun x => max 0 (min x 1))

/-- Modelled from the spec: the reference Benjamini-Hochberg procedure as the
spec words it — sort ascending, rank `i` of `m`, `p[i] * m / i`, running
minimum from the largest rank down, clip to `[0,1]`, map back to the original
gene order. -/
def bh_spec (ps : List ℚ) : List ℚ :=
  scatterBack (argsortIdx ps) (clip01 (suffMin (bhRaw ps))) ps.length

/-- The FDR output read along ascending p-value order. -/
def ascRead (ps : List ℚ) : List ℚ :=
  (argsortIdx ps).map (fun j => (multipletests_fdr_bh ps).getD j 0)

/-- The FDR output read along descending p-value order. -/
def descRead (ps : List ℚ) : List ℚ :=
  (ascRead ps).reverse

/-! ### ResultsTable rows and threshold filtering (interactive.py lines 100-131) -/

/-- One row of the ResultsTable (lines 100-106). -/
structure Row where
  gene : String
  baseMean : ℚ
  log2FoldChange : ℚ
  pvalue : ℚ
  fdr : ℚ
  deriving DecidableEq, Repr

/-- The sidebar thresholds (lines 18-20). -/
structure FilterThresholds where
  fdrCutoff : ℚ
  baseMeanCutoff : ℚ
  log2fcCutoff : ℚ
  deriving DecidableEq, Repr

/-- The FilteredView (lines 127-131): keep rows with
`FDR <= fdr_cutoff`, `BaseMean >= base_mean_cutoff` and
`abs(Log2FoldChange) >= log2fc_cutoff`. -/
def filteredView (rt : List Row) (th : FilterThresholds) : List Row :=
  rt.filter (fun r =>
    decide (r.fdr ≤ th.fdrCutoff) && decide (r.baseMean ≥ th.baseMeanCutoff) &&
      decide (|r.log2FoldChange| ≥ th.log2fcCutoff))

/-- A concrete row with all-zero FDR but negative BaseMean. -/
def cexRow : Row :=
  ⟨"G1", -1, 0, 0, 0⟩

/-! ### Per-gene pipeline arithmetic (interactive.py lines 91-106) -/

/-- Arithmetic mean of the available (non-missing) cells of one gene row;
models pandas `DataFrame.mean(axis=1)` (default `skipna=True`, lines 91-92) on
cells already coerced by `pd.to_numeric(errors='coerce')` (line 83), which
turns unparseable cells into missing values (`none`). An all-missing row has an
undefined (NaN) mean, modelled as `none`. -/
def meanAvail (vals : List (Option ℚ)) : Option ℚ :=
  let avail := vals.filterMap id
  if avail.length = 0 then none
  else some (avail.sum / (avail.length : ℚ))

/-- Log2 fold change `np.log2(treated_expr + 1) - np.log2(untreated_expr + 1)`
(line 95), as a function of the two group means. -/
noncomputable def rowLog2FC (t u : ℚ) : ℝ :=
  Real.logb 2 ((t : ℝ) + 1) - Real.logb 2 ((u : ℝ) + 1)

/-- Base mean `(treated_expr + untreated_expr) / 2` (line 102). -/
def rowBaseMean (t u : ℚ) : ℚ :=
  (t + u) / 2

/-- Per-gene pipeline outputs `(Log2FoldChange, BaseMean)` from the raw treated
and untreated cells of that gene row; `none` when a group mean is undefined. -/
noncomputable def pipelineRow (treated untreated : List (Option ℚ)) :
    Option (ℝ × ℚ) :=
  match meanAvail treated, meanAvail untreated with
  | some t, some u => some (rowLog2FC t u, rowBaseMean t u)
  | _, _ => none

/-! ### Ingestion (interactive.py lines 39-44) -/

/-- Split a character stream at every occurrence of `sep`; the record/field
tokenizer underlying the two `pd.read_csv` calls (lines 42 and 44). -/
def splitOnChar (sep : Char) : List Char → List (List Char)
  | [] => [[]]
  | c :: cs =>
    match splitOnChar sep cs with
    | [] => [[c]]
    | f :: rest => if c = sep then [] :: f :: rest else (c :: f) :: rest

/-- Delimiter dispatch (lines 41-44): tab when the uploaded file's NAME ends in
".txt", comma otherwise; the declared content format is never consulted. -/
def chooseSep (name : String) : Char :=
  if name.endsWith (".txt") then '\t' else ','

/-- A parse failure raised by `pd.read_csv`. -/
structure ParseErr where
  msg : String
  deriving DecidableEq, Repr

/-- Modelled from pandas (external library): `pd.read_csv` on a decoded text
stream with separator `sep` — split into newline-separated records, split each
record into `sep`-separated fields, and fail like the pandas C tokenizer when
the stream is empty or some record has more fields than the header row. -/
def read_csv (sep : Char) (content : String) :
    Except ParseErr (List (List (List Char))) :=
  if content = "" then Except.error ⟨"No columns to parse from file"⟩
  else
    match (splitOnChar '\n' content.toList).map (splitOnChar sep) with
    | [] => Except.error ⟨"No columns to parse from file"⟩
    | header :: body =>
      if body.all (fun r => r.length ≤ header.length) then
        Except.ok (header :: body)
      else Except.error ⟨"Error tokenizing data"⟩

/-! ### Upload & Configure control flow (interactive.py lines 36-115) -/

/-- Messages the page surfaces: the `st.info`/`st.warning`/`st.error`/
`st.success` calls of tab 1, plus the framework-rendered exception view for an
uncaught parse failure. -/
inductive Msg where
  | infoUpload : Msg
  | warnNoSamples : Msg
  | errorConfig : Msg
  | errorCaught : String → Msg
  | successRun : ℕ → Msg
  | uncaughtExc : String → Msg
  deriving DecidableEq, Repr

/-- Session state: the single mutable slot `st.session_state.results`
(lines 27-28, 108). -/
structure AppState where
  results : Option (List Row)
  deriving DecidableEq, Repr

/-- An uploaded file: name and decoded text content. -/
structure UploadedFile where
  name : String
  content : String
  deriving DecidableEq, Repr

/-- Sample columns labeled case-insensitively "treated" (line 86). -/
def treatedOf (condMap : List (String × String)) : List String :=
  (condMap.filter (fun kv => kv.2.toLower == "treated")).map (fun kv => kv.1)

/-- Sample columns labeled case-insensitively "untreated" (line 87). -/
def untreatedOf (condMap : List (String × String)) : List String :=
  (condMap.filter (fun kv => kv.2.toLower == "untreated")).map (fun kv => kv.1)

/-- The `try` block (lines 81-113): the numeric coercion (line 83, a fallible
step abstracted as `coerce`, since Python may raise anywhere in it), the
treated/untreated partition (lines 86-87), the partition guard (line 89), the
numeric pipeline plus results assignment (lines 90-109, abstracted as the
fallible `compute`), the configuration error (line 111), and the `except`
handler (lines 112-113) showing the caught exception's message. The results
slot is written only on the success path. -/
def runTryBlock (coerce : Except String Unit)
    (condMap : List (String × String))
    (compute : List String → List String → Except String (List Row))
    (st : AppState) : AppState × List Msg :=
  match coerce with
  | Except.error e => (st, [Msg.errorCaught e])
  | Except.ok _ =>
    if treatedOf condMap ≠ [] ∧ untreatedOf condMap ≠ [] then
      match compute (treatedOf condMap) (untreatedOf condMap) with
      | Except.ok results => (⟨some results⟩, [Msg.successRun results.length])
      | Except.error e => (st, [Msg.errorCaught e])
    else (st, [Msg.errorConfig])

/-- One run of tab 1 (lines 36-115): prompt when no upload (line 115), parse
the upload (lines 41-44; a parse exception is not caught by the app, so the
script run halts with session state unchanged and the framework renders the
exception), warn when no sample columns are selected (lines 62-63), and on the
run click (line 80) execute the guarded `try` block. -/
def tab1Run (file : Option UploadedFile) (sampleCols : List String)
    (condMap : List (String × String)) (runClicked : Bool)
    (coerce : Except String Unit)
    (compute : List String → List String → Except String (List Row))
    (st : AppState) : AppState × List Msg :=
  match file with
  | none => (st, [Msg.infoUpload])
  | some f =>
    match read_csv (chooseSep f.name) f.content with
    | Except.error pe => (st, [Msg.uncaughtExc pe.msg])
    | Except.ok _ =>
      if sampleCols = [] then (st, [Msg.warnNoSamples])
      else if runClicked then runTryBlock coerce condMap compute st
      else (st, [])

theorem argsortIdx_perm (ps : List ℚ) :
    (argsortIdx ps).Perm (List.range ps.length) :=
  List.perm_insertionSort _ _

theorem argsortIdx_length (ps : List ℚ) :
    (argsortIdx ps).length = ps.length := by
  simpa using (argsortIdx_perm ps).length_eq

theorem argsortIdx_nodup (ps : List ℚ) : (argsortIdx ps).Nodup :=
  ((argsortIdx_perm ps).symm).nodup (List.nodup_range _)

theorem mem_argsortIdx_lt {ps : List ℚ} {j : ℕ} (h : j ∈ argsortIdx ps) :
    j < ps.length :=
  List.mem_range.1 ((argsortIdx_perm ps).subset h)

theorem getD_prop {P : ℚ → Prop} {l : List ℚ} (h : ∀ x ∈ l, P x) (h0 : P 0)
    (k : ℕ) : P (l.getD k 0) := by
  by_cases hk : k < l.length
  · rw [List.getD_eq_getElem l 0 hk]
    exact h _ (List.getElem_mem hk)
  · rw [List.getD_eq_default l 0 (le_of_not_lt hk)]
    exact h0

theorem sortedP_getD_prop {P : ℚ → Prop} {ps : List ℚ} (h : ∀ p ∈ ps, P p)
    (h0 : P 0) (k : ℕ) : P ((sortedP ps).getD k 0) := by
  refine getD_prop ?_ h0 k
  intro x hx
  obtain ⟨j, _, rfl⟩ := List.mem_map.1 hx
  exact getD_prop h h0 j

theorem bhRaw_nonneg {ps : List ℚ} (h : ∀ p ∈ ps, 0 ≤ p) :
    ∀ x ∈ bhRaw ps, 0 ≤ x := by
  intro x hx
  obtain ⟨k, _, rfl⟩ := List.mem_map.1 hx
  have hq : 0 ≤ (sortedP ps).getD k 0 := sortedP_getD_prop h le_rfl k
  have hm : (0 : ℚ) ≤ (ps.length : ℚ) := Nat.cast_nonneg _
  have hk1 : (0 : ℚ) ≤ (k : ℚ) + 1 := by positivity
  exact div_nonneg (mul_nonneg hq hm) hk1

theorem suffMin_length (l : List ℚ) : (suffMin l).length = l.length := by
  induction l with
  | nil => rfl
  | cons p rest ih =>
    rw [suffMin]
    rcases hr : suffMin rest with _ | ⟨q, t⟩
    · simp only [List.length_cons]
      rw [hr] at ih
      simp at ih
      simp [← ih]
    · rw [hr] at ih
      simp only [List.length_cons] at ih ⊢
      simp [ih]

theorem suffMin_nonneg {l : List ℚ} (h : ∀ x ∈ l, 0 ≤ x) :
    ∀ x ∈ suffMin l, 0 ≤ x := by
  induction l with
  | nil => simp [suffMin]
  | cons p rest ih =>
    have hp : 0 ≤ p := h p (List.mem_cons_self _ _)
    have hrest : ∀ x ∈ rest, 0 ≤ x := fun x hx => h x (List.mem_cons_of_mem _ hx)
    intro x hx
    rw [suffMin] at hx
    rcases hr : suffMin rest with _ | ⟨q, t⟩
    · rw [hr] at hx
      simp at hx
      simpa [hx] using hp
    · rw [hr] at hx
      have hq : 0 ≤ q := by
        have : q ∈ suffMin rest := by rw [hr]; exact List.mem_cons_self _ _
        exact ih hrest q this
      rcases List.mem_cons.1 hx with rfl | hx2
      · exact le_min hp hq
      · exact ih hrest x (by rw [hr]; exact hx2)

theorem suffMin_ne_nil {l : List ℚ} (h : l ≠ []) : suffMin l ≠ [] := by
  intro hc
  have := suffMin_length l
  rw [hc] at this
  exact h (List.length_eq_zero.1 this.symm)

theorem suffMin_chain (l : List ℚ) : List.Chain' (· ≤ ·) (suffMin l) := by
  induction l with
  | nil => simp [suffMin]
  | cons p rest ih =>
    rw [suffMin]
    rcases hr : suffMin rest with _ | ⟨q, t⟩
    · simp
    · rw [hr] at ih
      exact List.chain'_cons.2 ⟨min_le_right _ _, ih⟩

theorem suffMin_le_getLast {l : List ℚ} (hl : l ≠ []) :
    ∀ x ∈ suffMin l, x ≤ l.getLast hl := by
  induction l with
  | nil => exact absurd rfl hl
  | cons p rest ih =>
    intro x hx
    rw [suffMin] at hx
    by_cases hrne : rest = []
    · subst hrne
      simp [suffMin] at hx
      simp [hx]
    · rcases hr : suffMin rest with _ | ⟨q, t⟩
      · exact absurd hr (suffMin_ne_nil hrne)
      · rw [hr] at hx
        rw [List.getLast_cons hrne]
        have hq : q ≤ rest.getLast hrne := by
          refine ih hrne q ?_
          rw [hr]
          exact List.mem_cons_self _ _
        rcases List.mem_cons.1 hx with rfl | hx2
        · exact le_trans (min_le_right _ _) hq
        · exact ih hrne x (by rw [hr]; exact hx2)

theorem bhSorted_length (ps : List ℚ) : (bhSorted ps).length = ps.length := by
  simp [bhSorted, clipHigh, suffMin_length, bhRaw]

theorem scatterBack_getD (idx : List ℕ) (vals : List ℚ) {m j : ℕ} (hj : j < m) :
    (scatterBack idx vals m).getD j 0 = vals.getD (List.indexOf j idx) 0 := by
  have h1 : j < (List.range m).length := by simpa using hj
  rw [scatterBack, List.getD_eq_getElem _ 0 (by simpa using hj), List.getElem_map,
    List.getElem_range]

theorem map_getD_scatterBack (idx : List ℕ) (vals : List ℚ) (m : ℕ)
    (hperm : idx.Perm (List.range m)) (hnd : idx.Nodup)
    (hlen : vals.length = m) :
    idx.map (fun j => (scatterBack idx vals m).getD j 0) = vals := by
  have hidxlen : idx.length = m := by simpa using hperm.length_eq
  apply List.ext_getElem
  · simp [hidxlen, hlen]
  · intro k h1 h2
    have hk : k < idx.length := by simpa using h1
    have hjm : idx[k] < m := List.mem_range.1 (hperm.subset (List.getElem_mem hk))
    rw [List.getElem_map, scatterBack_getD idx vals hjm,
      List.indexOf_getElem hnd k hk]
    exact List.getD_eq_getElem vals 0 h2

theorem ascRead_eq_bhSorted (ps : List ℚ) : ascRead ps = bhSorted ps :=
  map_getD_scatterBack (argsortIdx ps) (bhSorted ps) ps.length
    (argsortIdx_perm ps) (argsortIdx_nodup ps) (bhSorted_length ps)

theorem bhSorted_chain (ps : List ℚ) :
    List.Chain' (· ≤ ·) (bhSorted ps) := by
  rw [bhSorted, clipHigh]
  rw [List.chain'_map]
  exact (suffMin_chain (bhRaw ps)).imp (fun a b hab => min_le_min_right 1 hab)

theorem mem_bh_getD {ps : List ℚ} {y : ℚ} (hy : y ∈ multipletests_fdr_bh ps) :
    ∃ k : ℕ, y = (bhSorted ps).getD k 0 := by
  rw [multipletests_fdr_bh, scatterBack] at hy
  obtain ⟨j, _, rfl⟩ := List.mem_map.1 hy
  exact ⟨List.indexOf j (argsortIdx ps), rfl⟩

theorem bhSorted_getD_prop {ps : List ℚ} {P : ℚ → Prop}
    (h : ∀ x ∈ suffMin (bhRaw ps), P (min x 1)) (h0 : P 0) (k : ℕ) :
    P ((bhSorted ps).getD k 0) := by
  refine getD_prop ?_ h0 k
  intro x hx
  rw [bhSorted, clipHigh] at hx
  obtain ⟨z, hz, rfl⟩ := List.mem_map.1 hx
  exact h z hz

theorem bhRaw_length (ps : List ℚ) : (bhRaw ps).length = ps.length := by
  simp [bhRaw]

theorem bhRaw_getLast {ps : List ℚ} (hne : ps ≠ []) (h : bhRaw ps ≠ []) :
    (bhRaw ps).getLast h = (sortedP ps).getD (ps.length - 1) 0 := by
  have hm : 0 < ps.length := List.length_pos.2 hne
  have hcast : ((ps.length - 1 : ℕ) : ℚ) + 1 = (ps.length : ℚ) := by
    exact_mod_cast Nat.sub_add_cancel hm
  rw [List.getLast_eq_getElem]
  simp only [bhRaw, List.getElem_map, List.getElem_range, List.length_map,
    List.length_range]
  rw [hcast, mul_div_assoc, div_self (Nat.cast_ne_zero.2 hm.ne'), mul_one]

theorem bhSorted_lt {ps : List ℚ} {c : ℚ} (hc : 0 < c)
    (h : ∀ p ∈ ps, p < c) (k : ℕ) : (bhSorted ps).getD k 0 < c := by
  rcases eq_or_ne ps [] with rfl | hne
  · have hnil : bhSorted ([] : List ℚ) = [] := by
      simp [bhSorted, clipHigh, suffMin, bhRaw]
    rw [hnil]
    simpa using hc
  · refine @bhSorted_getD_prop ps (fun y => y < c) ?_ hc k
    intro x hx
    have hrawne : bhRaw ps ≠ [] := by
      rw [← List.length_pos, bhRaw_length]
      exact List.length_pos.2 hne
    have hq : (sortedP ps).getD (ps.length - 1) 0 < c :=
      @sortedP_getD_prop (fun y => y < c) ps h hc _
    calc min x 1 ≤ x := min_le_left _ _
      _ ≤ (bhRaw ps).getLast hrawne := suffMin_le_getLast hrawne x hx
      _ = (sortedP ps).getD (ps.length - 1) 0 := bhRaw_getLast hne hrawne
      _ < c := hq

theorem splitOnChar_ne_nil (sep : Char) (l : List Char) :
    splitOnChar sep l ≠ [] := by
  cases l with
  | nil => simp [splitOnChar]
  | cons c cs =>
    rw [splitOnChar]
    rcases h : splitOnChar sep cs with _ | ⟨f, rest⟩
    · simp
    · by_cases hc : c = sep <;> simp [hc]

theorem splitOnChar_of_not_mem {sep : Char} {l : List Char} (h : sep ∉ l) :
    splitOnChar sep l = [l] := by
  induction l with
  | nil => rfl
  | cons c cs ih =>
    have hc : ¬ (c = sep) := by
      intro hh
      subst hh
      exact h (List.mem_cons_self _ _)
    have hcs : sep ∉ cs := fun hh => h (List.mem_cons_of_mem _ hh)
    rw [splitOnChar, ih hcs]
    simp [hc]

/-- C1: for every p-value vector (entries in [0,1]), the FDR column computed
by `multipletests(pvalues, method="fdr_bh")` equals the spec's reference
Benjamini-Hochberg procedure: sort ascending, assign 1-indexed rank `i` of
`m`, compute `p[i] * m / i`, take the running minimum from the largest rank
down, clip to [0,1], and map back to the original gene order. -/
theorem bh_code_eq_spec (ps : List ℚ) (h : ∀ p ∈ ps, 0 ≤ p ∧ p ≤ 1) :
    multipletests_fdr_bh ps = bh_spec ps := by
  rw [multipletests_fdr_bh, bh_spec, bhSorted]
  congr 1
  rw [clipHigh, clip01]
  apply List.map_congr_left
  intro x hx
  have hx0 : 0 ≤ x :=
    suffMin_nonneg (bhRaw_nonneg (fun p hp => (h p hp).1)) x hx
  exact (max_eq_right (le_min hx0 zero_le_one)).symm

/-- Witness for C1 at the p-value vector [1/4, 3/4]. -/
theorem bh_code_eq_spec_witness :
    (∀ p ∈ [(1:ℚ)/4, 3/4], 0 ≤ p ∧ p ≤ 1) ∧
      multipletests_fdr_bh [(1:ℚ)/4, 3/4] = bh_spec [(1:ℚ)/4, 3/4] :=
  ⟨by with_unfolding_all decide, bh_code_eq_spec _ (by with_unfolding_all decide)⟩

/-- C8 counterexample: for the p-value vector [1/4, 3/4] the FDR output is
[1/2, 3/4]; read in descending-p order this is [3/4, 1/2], which is not
monotonically non-decreasing. -/
theorem bh_descRead_not_nondecreasing :
    ¬ List.Chain' (· ≤ ·) (descRead [(1:ℚ)/4, 3/4]) := by
  have h : descRead [(1:ℚ)/4, 3/4] = [3/4, 1/2] := by
    with_unfolding_all decide
  rw [h]
  simp only [List.chain'_cons, List.chain'_singleton, and_true]
  norm_num

/-- C8 (amended): the FDR output read in descending-p order is monotonically
NON-INCREASING (equivalently, non-decreasing along ascending p), and for
p-values in [0,1] every FDR value lies in [0,1]. -/
theorem bh_descRead_nonincreasing_and_bounded (ps : List ℚ)
    (h : ∀ p ∈ ps, 0 ≤ p ∧ p ≤ 1) :
    List.Chain' (· ≥ ·) (descRead ps) ∧
      ∀ y ∈ multipletests_fdr_bh ps, 0 ≤ y ∧ y ≤ 1 := by
  constructor
  · rw [descRead, ascRead_eq_bhSorted, List.chain'_reverse]
    exact (bhSorted_chain ps).imp (fun a b hab => hab)
  · intro y hy
    obtain ⟨k, rfl⟩ := mem_bh_getD hy
    refine @bhSorted_getD_prop ps (fun y => 0 ≤ y ∧ y ≤ 1) ?_
      ⟨le_rfl, zero_le_one⟩ k
    intro x hx
    have hx0 : 0 ≤ x :=
      suffMin_nonneg (bhRaw_nonneg (fun p hp => (h p hp).1)) x hx
    exact ⟨le_min hx0 zero_le_one, min_le_right _ _⟩

/-- Witness for the amended C8 at the p-value vector [1/4, 3/4]. -/
theorem bh_descRead_nonincreasing_witness :
    (∀ p ∈ [(1:ℚ)/4, 3/4], 0 ≤ p ∧ p ≤ 1) ∧
      List.Chain' (· ≥ ·) (descRead [(1:ℚ)/4, 3/4]) ∧
      ((3:ℚ)/4 ∈ multipletests_fdr_bh [(1:ℚ)/4, 3/4] ∧
        0 ≤ (3:ℚ)/4 ∧ (3:ℚ)/4 ≤ 1) :=
  ⟨by with_unfolding_all decide,
   (bh_descRead_nonincreasing_and_bounded [(1:ℚ)/4, 3/4]
     (by with_unfolding_all decide)).1,
   by with_unfolding_all decide,
   (bh_descRead_nonincreasing_and_bounded [(1:ℚ)/4, 3/4]
     (by with_unfolding_all decide)).2 ((3:ℚ)/4) (by with_unfolding_all decide)⟩

/-- C9: when every p-value lies in [0, 0.05) — as the simulated
`np.random.uniform(0, 0.05)` draws do — every Benjamini-Hochberg FDR value is
strictly below 0.05, so the `FDR <= fdr_cutoff` filter condition at cutoff
0.05 excludes no gene. -/
theorem fdr_below_cutoff (ps : List ℚ)
    (h : ∀ p ∈ ps, 0 ≤ p ∧ p < 1/20) :
    (∀ y ∈ multipletests_fdr_bh ps, y < 1/20) ∧
      ∀ r : Row, r.fdr ∈ multipletests_fdr_bh ps → r.fdr ≤ 1/20 := by
  have hmain : ∀ y ∈ multipletests_fdr_bh ps, y < 1/20 := by
    intro y hy
    obtain ⟨k, rfl⟩ := mem_bh_getD hy
    exact bhSorted_lt (by norm_num) (fun p hp => (h p hp).2) k
  exact ⟨hmain, fun r hr => le_of_lt (hmain _ hr)⟩

/-- Witness for C9 at the p-value vector [1/100, 1/25, 3/100], whose FDR
output contains 1/25. -/
theorem fdr_below_cutoff_witness :
    (∀ p ∈ [(1:ℚ)/100, 1/25, 3/100], 0 ≤ p ∧ p < 1/20) ∧
      ((1:ℚ)/25 ∈ multipletests_fdr_bh [(1:ℚ)/100, 1/25, 3/100] ∧
        (1:ℚ)/25 < 1/20) :=
  ⟨by with_unfolding_all decide,
   by with_unfolding_all decide,
   (fdr_below_cutoff [(1:ℚ)/100, 1/25, 3/100]
     (by with_unfolding_all decide)).1 ((1:ℚ)/25) (by with_unfolding_all decide)⟩

/-- C2: with the treated and untreated means defined as the arithmetic means
of the available (non-missing) cells, the pipeline row is
`(log2(t+1) - log2(u+1), (t+u)/2)`; at means 10 and 5 the log2 fold change is
`log2 11 - log2 6`. -/
theorem pipelineRow_formula (tr un : List (Option ℚ)) (t u : ℚ)
    (ht : meanAvail tr = some t) (hu : meanAvail un = some u) :
    pipelineRow tr un =
      some (Real.logb 2 ((t : ℝ) + 1) - Real.logb 2 ((u : ℝ) + 1),
        (t + u) / 2) ∧
      rowLog2FC 10 5 = Real.logb 2 11 - Real.logb 2 6 := by
  constructor
  · simp [pipelineRow, ht, hu, rowLog2FC, rowBaseMean]
  · rw [rowLog2FC]
    norm_num

/-- Witness for C2 on the spec's example row: treated cells (10, 10), untreated
cells (5, 5). -/
theorem pipelineRow_formula_witness :
    (meanAvail [some 10, some 10] = some 10 ∧
      meanAvail [some 5, some 5] = some 5) ∧
      (pipelineRow [some 10, some 10] [some 5, some 5] =
        some (Real.logb 2 (((10:ℚ) : ℝ) + 1) - Real.logb 2 (((5:ℚ) : ℝ) + 1),
          ((10:ℚ) + 5) / 2) ∧
        rowLog2FC 10 5 = Real.logb 2 11 - Real.logb 2 6) :=
  ⟨⟨by with_unfolding_all decide, by with_unfolding_all decide⟩,
   pipelineRow_formula [some 10, some 10] [some 5, some 5] 10 5
     (by with_unfolding_all decide) (by with_unfolding_all decide)⟩

/-- C3: the FilteredView holds exactly the rows meeting all three threshold
conditions, and is a sublist of the ResultsTable (a pure selection that leaves
the ResultsTable itself untouched). -/
theorem filteredView_exact (rt : List Row) (th : FilterThresholds) :
    (∀ r : Row, r ∈ filteredView rt th ↔
      r ∈ rt ∧ r.fdr ≤ th.fdrCutoff ∧ r.baseMean ≥ th.baseMeanCutoff ∧
        |r.log2FoldChange| ≥ th.log2fcCutoff) ∧
    (filteredView rt th).Sublist rt := by
  refine ⟨fun r => ?_, List.filter_sublist _⟩
  rw [filteredView, List.mem_filter]
  simp only [Bool.and_eq_true, decide_eq_true_eq, and_assoc]

/-- C7 counterexample: a ResultsTable whose single row has FDR 0 but negative
BaseMean is not returned in full by the (0.05, 0, 0) filter, because the
`BaseMean >= 0` condition drops the row. -/
theorem filteredView_allzero_counterexample :
    (∀ r ∈ [cexRow], r.fdr = 0) ∧
      filteredView [cexRow] ⟨1/20, 0, 0⟩ ≠ [cexRow] := by
  with_unfolding_all decide

/-- C7 (amended): on a ResultsTable whose FDR values are all 0 and whose
BaseMean values are all nonnegative, the (fdr 0.05, base-mean 0, log2fc 0)
filter returns the full table. -/
theorem filteredView_allzero_full (rt : List Row)
    (hf : ∀ r ∈ rt, r.fdr = 0) (hb : ∀ r ∈ rt, 0 ≤ r.baseMean) :
    filteredView rt ⟨1/20, 0, 0⟩ = rt := by
  rw [filteredView, List.filter_eq_self]
  intro r hr
  simp only [Bool.and_eq_true, decide_eq_true_eq, ge_iff_le]
  refine ⟨⟨?_, hb r hr⟩, abs_nonneg _⟩
  rw [hf r hr]
  norm_num

/-- Witness for the amended C7 at a one-row table with FDR 0 and BaseMean 3. -/
theorem filteredView_allzero_full_witness :
    (∀ r ∈ [Row.mk ("G1") 3 1 0 0], r.fdr = 0) ∧
      (∀ r ∈ [Row.mk ("G1") 3 1 0 0], 0 ≤ r.baseMean) ∧
      filteredView [Row.mk ("G1") 3 1 0 0] ⟨1/20, 0, 0⟩ =
        [Row.mk ("G1") 3 1 0 0] :=
  ⟨by decide, by decide,
   filteredView_allzero_full [Row.mk ("G1") 3 1 0 0] (by decide) (by decide)⟩

/-- C6: when parsing the upload fails, the run surfaces the parse error and
stops with the session results slot unchanged, whatever the downstream
coercion and computation would have done. -/
theorem parse_failure_blocks (f : UploadedFile) (sampleCols : List String)
    (condMap : List (String × String)) (runClicked : Bool)
    (coerce : Except String Unit)
    (compute : List String → List String → Except String (List Row))
    (st : AppState) (pe : ParseErr)
    (hparse : read_csv (chooseSep f.name) f.content = Except.error pe) :
    tab1Run (some f) sampleCols condMap runClicked coerce compute st =
      (st, [Msg.uncaughtExc pe.msg]) := by
  simp [tab1Run, hparse]

/-- Witness for C6 at an upload whose third record has more fields than the
header. -/
theorem parse_failure_blocks_witness :
    read_csv (chooseSep ("x.csv")) ("a,b\nc,d\ne,f,g") =
        Except.error ⟨"Error tokenizing data"⟩ ∧
      tab1Run (some ⟨"x.csv", "a,b\nc,d\ne,f,g"⟩) [] [] false (Except.ok ())
        (fun _ _ => Except.ok []) ⟨none⟩ =
        (⟨none⟩, [Msg.uncaughtExc (ParseErr.mk ("Error tokenizing data")).msg]) :=
  ⟨by with_unfolding_all rfl,
   parse_failure_blocks ⟨"x.csv", "a,b\nc,d\ne,f,g"⟩ [] [] false (Except.ok ())
     (fun _ _ => Except.ok []) ⟨none⟩ ⟨"Error tokenizing data"⟩
     (by with_unfolding_all rfl)⟩

/-- C4: any exception raised during numeric coercion or during the
differential-expression computation is caught, its message is shown, and the
stored results slot is left unchanged — it is assigned only on full success. -/
theorem pipeline_error_keeps_state (f : UploadedFile)
    (sampleCols : List String) (condMap : List (String × String))
    (coerce : Except String Unit)
    (compute : List String → List String → Except String (List Row))
    (st : AppState) (d : List (List (List Char))) (e : String)
    (hparse : read_csv (chooseSep f.name) f.content = Except.ok d)
    (hcols : sampleCols ≠ [])
    (hfail : coerce = Except.error e ∨
      (coerce = Except.ok () ∧ treatedOf condMap ≠ [] ∧
        untreatedOf condMap ≠ [] ∧
        compute (treatedOf condMap) (untreatedOf condMap) = Except.error e)) :
    tab1Run (some f) sampleCols condMap true coerce compute st =
      (st, [Msg.errorCaught e]) := by
  rcases hfail with rfl | ⟨rfl, ht, hu, hcomp⟩
  · simp [tab1Run, hparse, hcols, runTryBlock]
  · simp [tab1Run, hparse, hcols, runTryBlock, ht, hu, hcomp]

/-- Witness for C4: a computation failure ("boom") leaves the stored results
(here `some []`) intact and surfaces the message. -/
theorem pipeline_error_keeps_state_witness :
    read_csv (chooseSep ("x.csv")) ("a,b") = Except.ok [[['a'], ['b']]] ∧
      tab1Run (some ⟨"x.csv", "a,b"⟩) ["b"] [("T", "treated"), ("U", "untreated")]
        true (Except.ok ()) (fun _ _ => Except.error ("boom")) ⟨some []⟩ =
        (⟨some []⟩, [Msg.errorCaught ("boom")]) :=
  ⟨by with_unfolding_all rfl,
   pipeline_error_keeps_state ⟨"x.csv", "a,b"⟩ ["b"]
     [("T", "treated"), ("U", "untreated")] (Except.ok ())
     (fun _ _ => Except.error ("boom")) ⟨some []⟩ [[['a'], ['b']]] ("boom")
     (by with_unfolding_all rfl) (by decide)
     (Or.inr ⟨rfl, by with_unfolding_all decide, by with_unfolding_all decide,
       rfl⟩)⟩

/-- C5: with no sample columns selected tab 1 only warns, and with an empty
treated or untreated partition after labeling the guarded block reports a
configuration error; in both cases the pipeline does not run (the outcome is
the same for every `compute`) and the results slot is unchanged. -/
theorem config_error_blocks (f : UploadedFile) (sampleCols : List String)
    (condMap : List (String × String)) (runClicked : Bool)
    (coerce : Except String Unit)
    (compute : List String → List String → Except String (List Row))
    (st : AppState) (d : List (List (List Char)))
    (hparse : read_csv (chooseSep f.name) f.content = Except.ok d) :
    (tab1Run (some f) [] condMap runClicked coerce compute st =
      (st, [Msg.warnNoSamples])) ∧
    (sampleCols ≠ [] → treatedOf condMap = [] ∨ untreatedOf condMap = [] →
      tab1Run (some f) sampleCols condMap true (Except.ok ()) compute st =
        (st, [Msg.errorConfig])) := by
  constructor
  · simp [tab1Run, hparse]
  · intro hcols hpart
    have hng : ¬ (treatedOf condMap ≠ [] ∧ untreatedOf condMap ≠ []) := by
      rcases hpart with h1 | h1 <;> simp [h1]
    simp [tab1Run, hparse, hcols, runTryBlock, hng]

/-- Witness for C5: no sample columns selected, and a labeling with no
untreated sample. -/
theorem config_error_blocks_witness :
    (tab1Run (some ⟨"x.csv", "a,b"⟩) [] [("T", "treated")] false (Except.ok ())
        (fun _ _ => Except.ok []) ⟨none⟩ = (⟨none⟩, [Msg.warnNoSamples])) ∧
      tab1Run (some ⟨"x.csv", "a,b"⟩) ["b"] [("T", "treated")] true
        (Except.ok ()) (fun _ _ => Except.ok []) ⟨none⟩ =
        (⟨none⟩, [Msg.errorConfig]) := by
  have h := config_error_blocks ⟨"x.csv", "a,b"⟩ ["b"] [("T", "treated")] false
    (Except.ok ()) (fun _ _ => Except.ok []) ⟨none⟩ [[['a'], ['b']]]
    (by with_unfolding_all rfl)
  exact ⟨h.1, h.2 (by decide) (Or.inr (by with_unfolding_all decide))⟩

/-- C10: the parsing delimiter depends only on the uploaded file's name —
".txt" names are parsed tab-separated, all other names comma-separated — so a
comma-free (for example tab-delimited) stream uploaded under a non-".txt" name
parses successfully as a single column (one field per record) instead of
failing. -/
theorem delimiter_from_name_only :
    (∀ name : String, name.endsWith (".txt") = true → chooseSep name = '\t') ∧
    (∀ name : String, name.endsWith (".txt") = false → chooseSep name = ',') ∧
    ∀ (name content : String), name.endsWith (".txt") = false → content ≠ "" →
      (∀ line ∈ splitOnChar '\n' content.toList, ',' ∉ line) →
      read_csv (chooseSep name) content =
        Except.ok ((splitOnChar '\n' content.toList).map (fun l => [l])) := by
  refine ⟨fun name hn => by simp [chooseSep, hn],
    fun name hn => by simp [chooseSep, hn], ?_⟩
  intro name content hname hcont hnc
  have hsep : chooseSep name = ',' := by simp [chooseSep, hname]
  have hmap : (splitOnChar '\n' content.toList).map (splitOnChar ',') =
      (splitOnChar '\n' content.toList).map (fun l => [l]) :=
    List.map_congr_left (fun l hl => splitOnChar_of_not_mem (hnc l hl))
  rw [hsep, read_csv, if_neg hcont, hmap]
  rcases hlines : splitOnChar '\n' content.toList with _ | ⟨l0, ls⟩
  · exact absurd hlines (splitOnChar_ne_nil _ _)
  · simp

/-- Witness for C10: a tab-delimited stream uploaded under a ".csv" name. -/
theorem delimiter_from_name_only_witness :
    chooseSep ("counts.txt") = '\t' ∧ chooseSep ("counts.csv") = ',' ∧
      read_csv (chooseSep ("counts.csv")) ("gene\tA\nG1\t5") =
        Except.ok ((splitOnChar '\n' ("gene\tA\nG1\t5").toList).map
          (fun l => [l])) :=
  ⟨delimiter_from_name_only.1 ("counts.txt") (by with_unfolding_all decide),
   delimiter_from_name_only.2.1 ("counts.csv") (by with_unfolding_all decide),
   delimiter_from_name_only.2.2 ("counts.csv") ("gene\tA\nG1\t5")
     (by with_unfolding_all decide) (by with_unfolding_all decide)
     (by with_unfolding_all decide)⟩
